import Mathlib

/-!
Verification of the ViewportSampler component of the travel-photo-map
repository (the viewport density sampler embedded in
`specs/001-google-integration/spec.md`).

The sampler is shallowly embedded: JS strings become `String`, JS numbers
become `Int`/`Nat` (geographic coordinates and screen pixels are taken in
the integer subdomain; nothing the sampler does depends on fractional
values beyond `Math.floor`, which becomes `Int.fdiv`), JS 32-bit wrapping
arithmetic becomes explicit `% 2^32`, JS insertion-ordered objects become
association lists, and the mutable module state becomes an explicit
`SamplerState` threaded through the operations.  The external
collaborators (Leaflet map / rendering layer) are modelled at their
interface: a `Viewport` provides `contains` and `project`, and marker
handles are records carrying an identity number (modelling JS object
identity), the photo, and the currently displayed badge.
-/

namespace TravelPhotoMap

/-- JS `| 0` coercion: truncation to a signed 32-bit integer. -/
def toInt32 (x : Int) : Int :=
  (x + 2 ^ 31).emod (2 ^ 32) - 2 ^ 31

/-- One step of `stableHash`: `h = ((h << 5) - h + s.charCodeAt(i)) | 0`.
JS `<<` itself truncates to 32 bits before the (exact, double-precision)
subtraction and addition, and `| 0` truncates the result. -/
def stableHashStep (h : Int) (c : Nat) : Int :=
  toInt32 (toInt32 (h * 32) - h + c)

/-- Embeds `stableHash(s)` from the sampler source: a left fold of
`stableHashStep` over the character codes of `s`, starting from 0. -/
def stableHash (s : String) : Int :=
  s.data.foldl (fun h c => stableHashStep h c.toNat) 0

/-- Embeds `stableHash(key) & 0x3FF`: the low 10 bits of the signed 32-bit
hash, a natural number in `0..1023`. -/
def hashLow10 (s : String) : Nat :=
  ((stableHash s).emod 1024).toNat

/-- A photo record as consumed by the sampler.  `caption = ""` models a
missing or empty caption (both are falsy in the JS truth test
`if (p.caption)`), and `isFavorite` is the transient `_isFavorite` flag
the host sets on the photo object. -/
structure Photo where
  url : String
  lat : Int
  lng : Int
  thumbnail : String
  type : String
  caption : String
  isFavorite : Bool
deriving DecidableEq

/-- Embeds `photoKey(p) = p.url + '|' + p.lat + '|' + p.lng`. -/
def photoKey (p : Photo) : String :=
  p.url ++ "|" ++ toString p.lat ++ "|" ++ toString p.lng

/-- Embeds `photoPriority(p)`: +1000000 for a favorite, +1000 for a
truthy caption, plus the low 10 bits of the stable hash of the key. -/
def photoPriority (p : Photo) : Nat :=
  (if p.isFavorite then 1000000 else 0) +
    (if p.caption ≠ "" then 1000 else 0) +
    hashLow10 (photoKey p)

/-- The map / viewport provider collaborator, at its interface:
`contains` is `bounds.contains(L.latLng(lat, lng))` for the current
viewport bounds, and `project` is `latLngToContainerPoint`, returning
container-pixel coordinates. -/
structure Viewport where
  contains : Int → Int → Bool
  project : Int → Int → Int × Int

/-- A marker handle produced by the rendering collaborator.  `id` models
JS object identity (two handles are the same object exactly when their
ids coincide), `photo` is the `marker.photo` back-reference, and `badge`
is the hidden-count badge currently displayed (`none` when no badge
element is present). -/
structure Marker where
  id : Nat
  photo : Photo
  badge : Option Nat
deriving DecidableEq

/-- Embeds `updateBadge(iconEl, hiddenCount)`: shows `+hiddenCount` when
positive, removes the badge element when zero. -/
def updateBadge (m : Marker) (hiddenCount : Nat) : Marker :=
  { m with badge := if hiddenCount > 0 then some hiddenCount else none }

/-- Embeds `createMarker(photo, hiddenCount)` at the rendering
collaborator's contract: a fresh handle (fresh `id`) carrying the photo,
displaying a hidden-count badge exactly when the count is positive. -/
def createMarker (photo : Photo) (hiddenCount : Nat) (id : Nat) : Marker :=
  { id := id, photo := photo
    badge := if hiddenCount > 0 then some hiddenCount else none }

/-- The recognized configuration options passed to `init`. -/
structure Options where
  iconSize : Option Nat := none
  cellSize : Option Int := none
  onClick : Bool := false
  isFavorite : Option (Photo → Bool) := none

/-- JS `(opts && opts.x) || dflt` for a numeric option: `none` and the
falsy value 0 both fall back to the default. -/
def jsOrNat (v : Option Nat) (dflt : Nat) : Nat :=
  match v with
  | some n => if n = 0 then dflt else n
  | none => dflt

/-- JS `(opts && opts.x) || dflt` for the (integer) cell size. -/
def jsOrInt (v : Option Int) (dflt : Int) : Int :=
  match v with
  | some n => if n = 0 then dflt else n
  | none => dflt

/-- The sampler's module-level mutable state, made explicit.  `markers`
is the Active Marker Set `_markers` as an insertion-ordered association
list; `layerGroup` records whether `_layerGroup` is non-null; `nextId`
is the supply of fresh marker-handle identities. -/
structure SamplerState where
  map : Option Viewport
  photos : List Photo
  markers : List (String × Marker)
  layerGroup : Bool
  iconSize : Nat
  cellSize : Int
  onClick : Bool
  favGetter : Option (Photo → Bool)
  nextId : Nat

/-- The module's initial state: `_map = null`, `_photos = []`,
`_markers` empty, `_layerGroup = null`, `_iconSize = 90`,
`_cellSize = 150`, no handlers. -/
def initialState : SamplerState :=
  { map := none, photos := [], markers := [], layerGroup := false
    iconSize := 90, cellSize := 150, onClick := false, favGetter := none
    nextId := 0 }

/-- Lookup in an insertion-ordered association list (JS object read). -/
def lookupKey {α : Type} : List (String × α) → String → Option α
  | [], _ => none
  | (k', v) :: rest, k => if k' = k then some v else lookupKey rest k

/-- JS object assignment `m[k] = v`: overwrite in place when the key is
present, append otherwise. -/
def objSet {α : Type} : List (String × α) → String → α → List (String × α)
  | [], k, v => [(k, v)]
  | (k', v') :: rest, k, v =>
    if k' = k then (k, v) :: rest else (k', v') :: objSet rest k v

/-- Embeds the visibility filter of `update()`: drop favorites
(`if (p._isFavorite) continue`), keep photos whose position is inside the
viewport bounds. -/
def computeVisible (vp : Viewport) (photos : List Photo) : List Photo :=
  photos.filter (fun p => !p.isFavorite && vp.contains p.lat p.lng)

/-- Embeds the grid-cell key of a photo:
`Math.floor(pt.x / cellSize) + ',' + Math.floor(pt.y / cellSize)` where
`pt` is the projected container point. -/
def cellKeyOf (vp : Viewport) (cellSize : Int) (p : Photo) : String :=
  let pt := vp.project p.lat p.lng
  toString (Int.fdiv pt.1 cellSize) ++ "," ++ toString (Int.fdiv pt.2 cellSize)

/-- Append a photo to its cell's bucket, creating the bucket at the end
of the insertion-ordered cell map when absent (`cells[cellKey].push`). -/
def addToBuckets : List (String × List Photo) → String → Photo →
    List (String × List Photo)
  | [], k, p => [(k, [p])]
  | (k', ps) :: rest, k, p =>
    if k' = k then (k', ps ++ [p]) :: rest else (k', ps) :: addToBuckets rest k p

/-- Embeds the bucketing loop of `update()`: group the visible photos by
grid-cell key in iteration order. -/
def buildBuckets (vp : Viewport) (cellSize : Int) (visible : List Photo) :
    List (String × List Photo) :=
  visible.foldl (fun cells p => addToBuckets cells (cellKeyOf vp cellSize p) p) []

/-- Embeds `bucket.sort(descending by photoPriority)[0]`: JS `sort` is
stable and the comparator compares priorities, so the head of the sorted
bucket is the earliest member of maximal priority. -/
def selectBest : List Photo → Option Photo
  | [] => none
  | p :: ps =>
    some (ps.foldl (fun b q => if photoPriority q > photoPriority b then q else b) p)

/-- Embeds the winner-selection loop of `update()`: for each bucket in
insertion order, record `nextMarkers[photoKey(best)] =
(best, bucket.length - 1)`. -/
def computeNext (vp : Viewport) (cellSize : Int) (photos : List Photo) :
    List (String × Photo × Nat) :=
  (buildBuckets vp cellSize (computeVisible vp photos)).foldl
    (fun next cell =>
      match selectBest cell.2 with
      | none => next
      | some best => objSet next (photoKey best) (best, cell.2.length - 1))
    []

/-- Embeds the removal and badge-update phases of the diff: markers whose
key is absent from `nextMarkers` are deleted (their handles fade out on
the rendering side), and retained markers get `updateBadge` with the new
hidden count.  The marker's icon element is modelled as present (the
handle was added to the rendering layer when created). -/
def keptMarkers (next : List (String × Photo × Nat))
    (markers : List (String × Marker)) : List (String × Marker) :=
  (markers.filter (fun e => (lookupKey next e.1).isSome)).map
    (fun e =>
      match lookupKey next e.1 with
      | some info => (e.1, updateBadge e.2 info.2)
      | none => e)

/-- Embeds the add phase's work list: new keys of `nextMarkers` that are
not already tracked (`if (toKeep[nk]) continue` skips exactly the next
keys that were present among the existing markers). -/
def toAddOf (next : List (String × Photo × Nat))
    (markers : List (String × Marker)) : List (String × Photo × Nat) :=
  next.filter (fun e => (lookupKey markers e.1).isNone)

/-- Embeds the add loop of the diff.  `renderFail` is the behavior of the
rendering collaborator on this pass: when it holds for a winner's key,
`createMarker` throws there; the exception propagates out of `update()`,
so the loop stops and the returned flag records that the pass aborted.
On success each winner gets a fresh handle appended to the marker map. -/
def addLoop (renderFail : String → Bool) (s : SamplerState) :
    List (String × Photo × Nat) → SamplerState × Bool
  | [] => (s, false)
  | (k, p, hc) :: rest =>
    if renderFail k then (s, true)
    else
      addLoop renderFail
        { s with markers := s.markers ++ [(k, createMarker p hc s.nextId)]
                 nextId := s.nextId + 1 }
        rest

/-- Embeds `update()`, parametrized by the rendering collaborator's
failure behavior for this pass.  Returns the state after the pass and
whether a `createMarker` exception escaped.  The initial guard
`if (!_map || !_layerGroup) return` makes the call a no-op before
`init()`. -/
def updateWith (renderFail : String → Bool) (s : SamplerState) :
    SamplerState × Bool :=
  match s.map with
  | none => (s, false)
  | some vp =>
    if s.layerGroup then
      let next := computeNext vp s.cellSize s.photos
      addLoop renderFail { s with markers := keptMarkers next s.markers }
        (toAddOf next s.markers)
    else (s, false)

/-- Embeds `update()` on a pass where the rendering collaborator does not
fail (the normal case). -/
def update (s : SamplerState) : SamplerState :=
  (updateWith (fun _ => false) s).1

/-- Embeds `init(map, photos, opts)`: store the collaborators and
configuration (numeric options with JS `||` fallback), create the layer
group if absent, and run an initial `update()`.  Note the source does
not touch `_markers` here. -/
def init (vp : Viewport) (photos : Option (List Photo)) (opts : Option Options)
    (s : SamplerState) : SamplerState :=
  update
    { s with
        map := some vp
        photos := photos.getD []
        iconSize := jsOrNat (opts.bind Options.iconSize) s.iconSize
        cellSize := jsOrInt (opts.bind Options.cellSize) s.cellSize
        onClick := (opts.map Options.onClick).getD false
        favGetter := opts.bind Options.isFavorite
        layerGroup := true }

/-- Embeds `stop()`: clear the rendering layer when present, null the
layer group, and empty the tracking state.  Note `_map` is kept. -/
def stop (s : SamplerState) : SamplerState :=
  { s with layerGroup := false, markers := [], photos := [] }

/-- Embeds `setPhotos(photos)`: replace the collection, no recompute. -/
def setPhotos (photos : Option (List Photo)) (s : SamplerState) : SamplerState :=
  { s with photos := photos.getD [] }

/-- Embeds `setCellSize(size)`: store the size and run `update()`. -/
def setCellSize (size : Int) (s : SamplerState) : SamplerState :=
  update { s with cellSize := size }

/-- Embeds `updateIconSize(size)`: store the size and rebuild every
tracked marker's icon in place, reading the displayed hidden count back
out of the badge (`parseInt` of the `+N` text, 0 when absent) and
showing it on the rebuilt icon exactly when positive. -/
def updateIconSize (size : Nat) (s : SamplerState) : SamplerState :=
  { s with
      iconSize := size
      markers := s.markers.map (fun e =>
        let hc := e.2.badge.getD 0
        (e.1, { e.2 with badge := if hc > 0 then some hc else none })) }

/-- Embeds `getBounds()`: `null` when no marker is tracked, otherwise
the bounding box (minLat, minLng, maxLat, maxLng) of the tracked
markers' positions. -/
def getBounds (s : SamplerState) : Option (Int × Int × Int × Int) :=
  match s.markers.map (fun e => (e.2.photo.lat, e.2.photo.lng)) with
  | [] => none
  | q :: rest =>
    some (rest.foldl
      (fun b r => (min b.1 r.1, min b.2.1 r.2, max b.2.2.1 r.1, max b.2.2.2 r.2))
      (q.1, q.2, q.1, q.2))

/-- The markers the add loop creates for a work list when no creation
fails, with handle identities drawn consecutively from `startId`.  Used
to state what `update()` appends to the marker map. -/
def createdFrom : Nat → List (String × Photo × Nat) → List (String × Marker)
  | _, [] => []
  | i, (k, p, hc) :: rest => (k, createMarker p hc i) :: createdFrom (i + 1) rest

/-- Test viewport: every position is inside the bounds, and projection
maps a position to itself (an identity-like container transform). -/
def vpAll : Viewport :=
  { contains := fun _ _ => true, project := fun la ln => (la, ln) }

/-- Test photo with a caption whose identity key `dr.jpg|10|20` has
stable-hash low bits 0. -/
def pA : Photo :=
  { url := "dr.jpg", lat := 10, lng := 20, thumbnail := "", type := "image"
    caption := "x", isFavorite := false }

/-- Test photo without a caption whose identity key `azf.jpg|10|20` has
stable-hash low bits 1023. -/
def pB : Photo :=
  { url := "azf.jpg", lat := 10, lng := 20, thumbnail := "", type := "image"
    caption := "", isFavorite := false }

/-- Test photo without a caption whose identity key `a.jpg|10|20` has
stable-hash low bits 19. -/
def p1 : Photo :=
  { url := "a.jpg", lat := 10, lng := 20, thumbnail := "", type := "image"
    caption := "", isFavorite := false }

/-- Test photo without a caption whose identity key `cd.jpg|10|20` also
has stable-hash low bits 19, tying with `p1`. -/
def p2 : Photo :=
  { url := "cd.jpg", lat := 10, lng := 20, thumbnail := "", type := "image"
    caption := "", isFavorite := false }

/-- Test photo at the origin cell. -/
def pC : Photo :=
  { url := "c.jpg", lat := 0, lng := 0, thumbnail := "", type := "image"
    caption := "", isFavorite := false }

/-- Test photo two cells away from `pC` (projected to (300, 300), cell
`2,2` at the default 150px cell size). -/
def pD : Photo :=
  { url := "d.jpg", lat := 300, lng := 300, thumbnail := "", type := "image"
    caption := "", isFavorite := false }

/-- Test state whose favorite predicate reports every photo as a
favorite, while the photo's own `_isFavorite` flag is false. -/
def s3 : SamplerState :=
  { initialState with
      map := some vpAll, layerGroup := true, photos := [pA]
      favGetter := some (fun _ => true) }

/-- Test state with two photos that fall in the same cell. -/
def s4 : SamplerState :=
  { initialState with map := some vpAll, layerGroup := true, photos := [pA, pB] }

/-- A pre-existing marker handle with identity 99. -/
def mk99 : Marker := { id := 99, photo := pA, badge := none }

/-- Test state that already tracks a marker (handle 99) for `pA`'s key
before `init` is called again. -/
def s5 : SamplerState :=
  { initialState with
      map := some vpAll, layerGroup := true, photos := [pA]
      markers := [(photoKey pA, mk99)], nextId := 100 }

/-- Test state with two photos in two distinct cells. -/
def s6 : SamplerState :=
  { initialState with map := some vpAll, layerGroup := true, photos := [pC, pD] }

/-- Rendering-collaborator behavior that throws exactly on `pC`'s key. -/
def fail6 (k : String) : Bool := k = photoKey pC

/-- Test state like `s4` but with different pre-existing tracking state
(a stale marker and a different identity counter). -/
def s9 : SamplerState :=
  { s4 with markers := [("stale", mk99)], nextId := 7 }


theorem lookupKey_append_some {α : Type} {a b : List (String × α)} {k : String}
    {v : α} (h : lookupKey a k = some v) : lookupKey (a ++ b) k = some v := by
  induction a with
  | nil => simp [lookupKey] at h
  | cons e rest ih =>
    obtain ⟨k', v'⟩ := e
    by_cases hk : k' = k
    · simp [lookupKey, hk] at h ⊢; exact h
    · simp [lookupKey, hk] at h ⊢; exact ih h

theorem lookupKey_append_none {α : Type} {a : List (String × α)} {k : String}
    (b : List (String × α)) (h : lookupKey a k = none) :
    lookupKey (a ++ b) k = lookupKey b k := by
  induction a with
  | nil => simp
  | cons e rest ih =>
    obtain ⟨k', v'⟩ := e
    by_cases hk : k' = k
    · simp [lookupKey, hk] at h
    · simp [lookupKey, hk] at h ⊢; exact ih h

theorem lookupKey_mem {α : Type} {m : List (String × α)} {k : String} {v : α}
    (h : lookupKey m k = some v) : (k, v) ∈ m := by
  induction m with
  | nil => simp [lookupKey] at h
  | cons e rest ih =>
    obtain ⟨k', v'⟩ := e
    by_cases hk : k' = k
    · subst hk
      simp [lookupKey] at h
      subst h
      exact List.mem_cons_self _ _
    · simp [lookupKey, hk] at h
      exact List.mem_cons_of_mem _ (ih h)

theorem lookupKey_isSome_iff_mem_keys {α : Type} {m : List (String × α)}
    {k : String} : (lookupKey m k).isSome ↔ k ∈ m.map Prod.fst := by
  induction m with
  | nil => simp [lookupKey]
  | cons e rest ih =>
    obtain ⟨k', v'⟩ := e
    by_cases hk : k' = k
    · subst hk; simp [lookupKey]
    · simp [lookupKey, hk, ih, Ne.symm hk]

theorem lookupKey_of_mem_nodup {α : Type} {m : List (String × α)} {k : String}
    {v : α} (hn : (m.map Prod.fst).Nodup) (h : (k, v) ∈ m) :
    lookupKey m k = some v := by
  induction m with
  | nil => simp at h
  | cons e rest ih =>
    obtain ⟨k', v'⟩ := e
    rw [List.map_cons, List.nodup_cons] at hn
    rcases List.mem_cons.mp h with h1 | h1
    · cases h1
      simp [lookupKey]
    · have hk : k' ≠ k := by
        intro hkk
        subst hkk
        exact hn.1 (List.mem_map.mpr ⟨(k', v), h1, rfl⟩)
      simp [lookupKey, hk]
      exact ih hn.2 h1

theorem mem_objSet_or {α : Type} {m : List (String × α)} {k : String} {v : α}
    {e : String × α} (h : e ∈ objSet m k v) : e = (k, v) ∨ e ∈ m := by
  induction m with
  | nil => simp [objSet] at h; simp [h]
  | cons e' rest ih =>
    obtain ⟨k', v'⟩ := e'
    by_cases hk : k' = k
    · simp [objSet, hk] at h
      rcases h with h | h
      · exact Or.inl h
      · exact Or.inr (List.mem_cons_of_mem _ h)
    · simp [objSet, hk] at h
      rcases h with h | h
      · exact Or.inr (List.mem_cons.mpr (Or.inl (by simp [h])))
      · rcases ih h with h1 | h1
        · exact Or.inl h1
        · exact Or.inr (List.mem_cons_of_mem _ h1)

theorem mem_keys_objSet {α : Type} {m : List (String × α)} {k x : String}
    {v : α} (h : x ∈ (objSet m k v).map Prod.fst) :
    x ∈ m.map Prod.fst ∨ x = k := by
  rcases List.mem_map.mp h with ⟨e, he, hx⟩
  rcases mem_objSet_or he with h1 | h1
  · subst h1; simp at hx; exact Or.inr hx.symm
  · exact Or.inl (List.mem_map.mpr ⟨e, h1, hx⟩)

theorem objSet_nodup_keys {α : Type} {m : List (String × α)} {k : String}
    {v : α} (hn : (m.map Prod.fst).Nodup) :
    ((objSet m k v).map Prod.fst).Nodup := by
  induction m with
  | nil => simp [objSet]
  | cons e rest ih =>
    obtain ⟨k', v'⟩ := e
    rw [List.map_cons, List.nodup_cons] at hn
    by_cases hk : k' = k
    · subst hk
      simp [objSet]
      exact ⟨fun x hx => hn.1 (List.mem_map.mpr ⟨(k', x), hx, rfl⟩), hn.2⟩
    · simp only [objSet, hk, if_neg, ite_false, List.map_cons]
      rw [List.nodup_cons]
      refine ⟨fun hmem => ?_, ih hn.2⟩
      rcases mem_keys_objSet hmem with h1 | h1
      · exact hn.1 h1
      · exact hk h1

theorem lookupKey_objSet_self {α : Type} {m : List (String × α)} {k : String}
    {v : α} : lookupKey (objSet m k v) k = some v := by
  induction m with
  | nil => simp [objSet, lookupKey]
  | cons e rest ih =>
    obtain ⟨k', v'⟩ := e
    by_cases hk : k' = k
    · simp [objSet, hk, lookupKey]
    · simp [objSet, hk, lookupKey, ih]

theorem selectBest_mem {l : List Photo} {p : Photo} (h : selectBest l = some p) :
    p ∈ l := by
  cases l with
  | nil => simp [selectBest] at h
  | cons q qs =>
    simp [selectBest] at h
    subst h
    have : ∀ (rest : List Photo) (b : Photo),
        rest.foldl (fun b q => if photoPriority q > photoPriority b then q else b) b
          ∈ b :: rest := by
      intro rest
      induction rest with
      | nil => intro b; simp
      | cons r rs ih =>
        intro b
        by_cases hr : photoPriority r > photoPriority b
        · simp only [List.foldl_cons, hr, if_pos]
          rcases List.mem_cons.mp (ih r) with h1 | h1
          · rw [h1]; simp
          · simp [List.mem_cons_of_mem, h1]
        · simp only [List.foldl_cons, hr, if_neg, ite_false]
          rcases List.mem_cons.mp (ih b) with h1 | h1
          · rw [h1]; simp
          · simp [List.mem_cons_of_mem, h1]
    exact this qs q

theorem selectBest_max {l : List Photo} {p : Photo} (h : selectBest l = some p) :
    ∀ q ∈ l, photoPriority q ≤ photoPriority p := by
  cases l with
  | nil => simp [selectBest] at h
  | cons q0 qs =>
    simp [selectBest] at h
    subst h
    have key : ∀ (rest : List Photo) (b : Photo),
        photoPriority b ≤ photoPriority
            (rest.foldl (fun b q => if photoPriority q > photoPriority b then q else b) b)
        ∧ ∀ q ∈ rest, photoPriority q ≤ photoPriority
            (rest.foldl (fun b q => if photoPriority q > photoPriority b then q else b) b) := by
      intro rest
      induction rest with
      | nil => intro b; simp
      | cons r rs ih =>
        intro b
        by_cases hr : photoPriority r > photoPriority b
        · simp only [List.foldl_cons, hr, if_pos]
          refine ⟨le_of_lt (lt_of_lt_of_le hr (ih r).1), ?_⟩
          intro q hq
          rcases List.mem_cons.mp hq with h1 | h1
          · rw [h1]; exact (ih r).1
          · exact (ih r).2 q h1
        · simp only [List.foldl_cons, hr, if_neg, ite_false]
          refine ⟨(ih b).1, ?_⟩
          intro q hq
          rcases List.mem_cons.mp hq with h1 | h1
          · rw [h1]
            exact le_trans (le_of_not_lt hr) (ih b).1
          · exact (ih b).2 q h1
    intro q hq
    rcases List.mem_cons.mp hq with h1 | h1
    · rw [h1]; exact (key qs q0).1
    · exact (key qs q0).2 q h1



/-- Invariant of the bucket map: each bucket is nonempty and every member
projects to the bucket's cell and comes from the scanned pool. -/
def BucketInv (vp : Viewport) (cs : Int) (pool : List Photo)
    (e : String × List Photo) : Prop :=
  e.2 ≠ [] ∧ ∀ q ∈ e.2, cellKeyOf vp cs q = e.1 ∧ q ∈ pool

theorem addToBuckets_inv {vp : Viewport} {cs : Int} {pool : List Photo}
    {cells : List (String × List Photo)} {k : String} {p : Photo}
    (hall : ∀ e ∈ cells, BucketInv vp cs pool e)
    (hk : cellKeyOf vp cs p = k) (hp : p ∈ pool) :
    ∀ e ∈ addToBuckets cells k p, BucketInv vp cs pool e := by
  induction cells with
  | nil =>
    intro e he
    simp [addToBuckets] at he
    subst he
    exact ⟨by simp, by intro q hq; simp at hq; subst hq; exact ⟨hk, hp⟩⟩
  | cons c rest ih =>
    obtain ⟨k', ps⟩ := c
    intro e he
    by_cases hkk : k' = k
    · subst hkk
      simp only [addToBuckets, if_pos] at he
      rcases List.mem_cons.mp he with h1 | h1
      · subst h1
        have hc := hall (k', ps) (List.mem_cons_self _ _)
        refine ⟨by simp, ?_⟩
        intro q hq
        rcases List.mem_append.mp hq with h2 | h2
        · exact hc.2 q h2
        · simp at h2
          subst h2
          exact ⟨hk, hp⟩
      · exact hall e (List.mem_cons_of_mem _ h1)
    · simp only [addToBuckets, hkk, if_neg, ite_false] at he
      rcases List.mem_cons.mp he with h1 | h1
      · subst h1
        exact hall _ (List.mem_cons_self _ _)
      · exact ih (fun e' he' => hall e' (List.mem_cons_of_mem _ he')) e h1

theorem buildBuckets_inv {vp : Viewport} {cs : Int} {vis : List Photo} :
    ∀ e ∈ buildBuckets vp cs vis, BucketInv vp cs vis e := by
  have aux : ∀ (l : List Photo) (cells : List (String × List Photo)),
      (∀ q ∈ l, q ∈ vis) →
      (∀ e ∈ cells, BucketInv vp cs vis e) →
      ∀ e ∈ l.foldl (fun cells p => addToBuckets cells (cellKeyOf vp cs p) p) cells,
        BucketInv vp cs vis e := by
    intro l
    induction l with
    | nil => intro cells _ hc; simpa using hc
    | cons p rest ih =>
      intro cells hl hc
      simp only [List.foldl_cons]
      exact ih _ (fun q hq => hl q (List.mem_cons_of_mem _ hq))
        (addToBuckets_inv hc rfl (hl p (List.mem_cons_self _ _)))
  exact aux vis [] (fun q hq => hq) (by simp)

theorem mem_keys_addToBuckets {cells : List (String × List Photo)} {k x : String}
    {p : Photo} (h : x ∈ (addToBuckets cells k p).map Prod.fst) :
    x ∈ cells.map Prod.fst ∨ x = k := by
  induction cells with
  | nil => simp [addToBuckets] at h; exact Or.inr h
  | cons c rest ih =>
    obtain ⟨k', ps⟩ := c
    by_cases hkk : k' = k
    · simp only [addToBuckets, hkk, if_pos, List.map_cons] at h
      rcases List.mem_cons.mp h with h1 | h1
      · exact Or.inr h1
      · exact Or.inl (List.mem_cons_of_mem _ h1)
    · simp only [addToBuckets, hkk, if_neg, ite_false, List.map_cons] at h
      rcases List.mem_cons.mp h with h1 | h1
      · exact Or.inl (by simp [h1])
      · rcases ih h1 with h2 | h2
        · exact Or.inl (List.mem_cons_of_mem _ h2)
        · exact Or.inr h2

theorem addToBuckets_nodup_keys {cells : List (String × List Photo)} {k : String}
    {p : Photo} (hn : (cells.map Prod.fst).Nodup) :
    ((addToBuckets cells k p).map Prod.fst).Nodup := by
  induction cells with
  | nil => simp [addToBuckets]
  | cons c rest ih =>
    obtain ⟨k', ps⟩ := c
    rw [List.map_cons, List.nodup_cons] at hn
    by_cases hkk : k' = k
    · subst hkk
      simp only [addToBuckets, if_pos, List.map_cons]
      rw [List.nodup_cons]
      exact ⟨hn.1, hn.2⟩
    · simp only [addToBuckets, hkk, if_neg, ite_false, List.map_cons]
      rw [List.nodup_cons]
      refine ⟨fun hmem => ?_, ih hn.2⟩
      rcases mem_keys_addToBuckets hmem with h1 | h1
      · exact hn.1 h1
      · exact hkk h1

theorem buildBuckets_nodup_keys {vp : Viewport} {cs : Int} {vis : List Photo} :
    ((buildBuckets vp cs vis).map Prod.fst).Nodup := by
  have aux : ∀ (l : List Photo) (cells : List (String × List Photo)),
      (cells.map Prod.fst).Nodup →
      ((l.foldl (fun cells p => addToBuckets cells (cellKeyOf vp cs p) p)
        cells).map Prod.fst).Nodup := by
    intro l
    induction l with
    | nil => intro cells hc; simpa using hc
    | cons p rest ih =>
      intro cells hc
      simp only [List.foldl_cons]
      exact ih _ (addToBuckets_nodup_keys hc)
  exact aux vis [] (by simp)

theorem nodup_keys_mem_unique {α : Type} {m : List (String × α)} {k : String}
    {a b : α} (hn : (m.map Prod.fst).Nodup) (h1 : (k, a) ∈ m)
    (h2 : (k, b) ∈ m) : a = b := by
  have e1 := lookupKey_of_mem_nodup hn h1
  have e2 := lookupKey_of_mem_nodup hn h2
  rw [e1] at e2
  exact Option.some.inj e2

/-- Origin of a recorded winner: each entry of `computeNext` is the
selected best of some bucket of the pass, keyed by the winner's identity
key, with hidden count one less than the bucket size. -/
theorem computeNext_entry {vp : Viewport} {cs : Int} {photos : List Photo}
    {k : String} {p : Photo} {hc : Nat}
    (h : (k, p, hc) ∈ computeNext vp cs photos) :
    ∃ ck ps, (ck, ps) ∈ buildBuckets vp cs (computeVisible vp photos) ∧
      selectBest ps = some p ∧ k = photoKey p ∧
      hc = ps.length - 1 := by
  unfold computeNext at h
  have aux : ∀ (bl acc : List _),
      (∀ e' ∈ acc, ∃ ck ps,
        (ck, ps) ∈ buildBuckets vp cs (computeVisible vp photos) ∧
        selectBest ps = some (e' : String × Photo × Nat).2.1 ∧
        e'.1 = photoKey e'.2.1 ∧ e'.2.2 = ps.length - 1) →
      (∀ c ∈ bl, c ∈ buildBuckets vp cs (computeVisible vp photos)) →
      ∀ e' ∈ bl.foldl
        (fun next cell =>
          match selectBest cell.2 with
          | none => next
          | some best => objSet next (photoKey best) (best, cell.2.length - 1))
        acc,
      ∃ ck ps, (ck, ps) ∈ buildBuckets vp cs (computeVisible vp photos) ∧
        selectBest ps = some e'.2.1 ∧ e'.1 = photoKey e'.2.1 ∧
        e'.2.2 = ps.length - 1 := by
    intro bl
    induction bl with
    | nil => intro acc hacc _ e' he'; exact hacc e' he'
    | cons c rest ih =>
      intro acc hacc hbl
      simp only [List.foldl_cons]
      cases hsel : selectBest c.2 with
      | none =>
        simp only [hsel]
        exact ih acc hacc (fun c' hc' => hbl c' (List.mem_cons_of_mem _ hc'))
      | some best =>
        simp only [hsel]
        refine ih _ ?_ (fun c' hc' => hbl c' (List.mem_cons_of_mem _ hc'))
        intro e' he'
        rcases mem_objSet_or he' with h1 | h1
        · subst h1
          exact ⟨c.1, c.2, hbl c (List.mem_cons_self _ _), hsel, rfl, rfl⟩
        · exact hacc e' h1
  exact aux _ [] (by simp) (fun c hc' => hc') (k, p, hc) h

theorem computeNext_nodup_keys {vp : Viewport} {cs : Int}
    {photos : List Photo} : ((computeNext vp cs photos).map Prod.fst).Nodup := by
  unfold computeNext
  have aux : ∀ (bl : List (String × List Photo)) (acc : List (String × Photo × Nat)),
      (acc.map Prod.fst).Nodup →
      ((bl.foldl
        (fun next cell =>
          match selectBest cell.2 with
          | none => next
          | some best => objSet next (photoKey best) (best, cell.2.length - 1))
        acc).map Prod.fst).Nodup := by
    intro bl
    induction bl with
    | nil => intro acc hacc; simpa using hacc
    | cons c rest ih =>
      intro acc hacc
      simp only [List.foldl_cons]
      cases hsel : selectBest c.2 with
      | none => simp only [hsel]; exact ih acc hacc
      | some best => simp only [hsel]; exact ih _ (objSet_nodup_keys hacc)
  exact aux _ [] (by simp)




theorem addLoop_no_fail {f : String → Bool} :
    ∀ (l : List (String × Photo × Nat)) (s : SamplerState),
    (∀ e ∈ l, f e.1 = false) →
    addLoop f s l =
      ({ s with markers := s.markers ++ createdFrom s.nextId l
                nextId := s.nextId + l.length }, false) := by
  intro l
  induction l with
  | nil => intro s _; simp [addLoop, createdFrom]
  | cons e rest ih =>
    intro s hf
    obtain ⟨k, p, hc⟩ := e
    have hk : f k = false := hf (k, p, hc) (List.mem_cons_self _ _)
    simp only [addLoop, hk, Bool.false_eq_true, if_neg, ite_false]
    rw [ih _ (fun e' he' => hf e' (List.mem_cons_of_mem _ he'))]
    simp [createdFrom, List.append_assoc]
    omega

theorem addLoop_fail {f : String → Bool} :
    ∀ (pre : List (String × Photo × Nat)) (k : String) (p : Photo) (hc : Nat)
      (post : List (String × Photo × Nat)) (s : SamplerState),
    (∀ e ∈ pre, f e.1 = false) → f k = true →
    addLoop f s (pre ++ (k, p, hc) :: post) =
      ({ s with markers := s.markers ++ createdFrom s.nextId pre
                nextId := s.nextId + pre.length }, true) := by
  intro pre
  induction pre with
  | nil =>
    intro k p hc post s _ hk
    simp [addLoop, hk, createdFrom]
  | cons e rest ih =>
    intro k p hc post s hf hk
    obtain ⟨k', p', hc'⟩ := e
    have hk' : f k' = false := hf (k', p', hc') (List.mem_cons_self _ _)
    simp only [List.cons_append, addLoop, hk', Bool.false_eq_true, if_neg,
      ite_false, List.append_eq]
    rw [ih k p hc post _ (fun e' he' => hf e' (List.mem_cons_of_mem _ he')) hk]
    simp [createdFrom, List.append_assoc]
    omega

theorem update_eq {s : SamplerState} {vp : Viewport} (hm : s.map = some vp)
    (hl : s.layerGroup = true) :
    update s =
      { s with
          markers :=
            keptMarkers (computeNext vp s.cellSize s.photos) s.markers ++
              createdFrom s.nextId
                (toAddOf (computeNext vp s.cellSize s.photos) s.markers)
          nextId := s.nextId +
            (toAddOf (computeNext vp s.cellSize s.photos) s.markers).length } := by
  unfold update updateWith
  rw [hm]
  simp only [hl, if_pos]
  rw [addLoop_no_fail _ _ (fun e _ => rfl)]

theorem updateWith_not_ready {f : String → Bool} {s : SamplerState}
    (h : s.map = none ∨ s.layerGroup = false) : updateWith f s = (s, false) := by
  unfold updateWith
  rcases h with h | h
  · rw [h]
  · cases hm : s.map with
    | none => rfl
    | some vp => simp [h]




theorem mem_keptMarkers {next : List (String × Photo × Nat)}
    {ms : List (String × Marker)} {e : String × Marker}
    (h : e ∈ keptMarkers next ms) :
    ∃ m0 info, (e.1, m0) ∈ ms ∧ lookupKey next e.1 = some info ∧
      e.2 = updateBadge m0 info.2 := by
  unfold keptMarkers at h
  rcases List.mem_map.mp h with ⟨e0, he0, heq⟩
  rcases List.mem_filter.mp he0 with ⟨hmem, hsome⟩
  cases hinfo : lookupKey next e0.1 with
  | none => rw [hinfo] at hsome; simp at hsome
  | some info =>
    rw [hinfo] at heq
    refine ⟨e0.2, info, ?_, ?_, ?_⟩
    · rw [← heq]; exact hmem
    · rw [← heq]; exact hinfo
    · rw [← heq]

theorem lookupKey_keptMarkers_some {next : List (String × Photo × Nat)}
    {ms : List (String × Marker)} {k : String} {m : Marker}
    {info : Photo × Nat} (hn : lookupKey next k = some info)
    (hm : lookupKey ms k = some m) :
    lookupKey (keptMarkers next ms) k = some (updateBadge m info.2) := by
  induction ms with
  | nil => simp [lookupKey] at hm
  | cons e rest ih =>
    obtain ⟨k', m'⟩ := e
    by_cases hk : k' = k
    · subst hk
      simp only [lookupKey, if_pos rfl] at hm
      cases hm
      simp only [keptMarkers, List.filter_cons, hn, Option.isSome_some,
        List.map_cons, if_pos]
      simp [lookupKey]
    · simp only [lookupKey, hk, if_neg, ite_false] at hm
      by_cases hks : (lookupKey next k').isSome
      · cases hinfo : lookupKey next k' with
        | none => rw [hinfo] at hks; simp at hks
        | some info' =>
          simp only [keptMarkers, List.filter_cons, hinfo, Option.isSome_some,
            List.map_cons, if_pos]
          simp only [lookupKey, hk, if_neg, ite_false]
          exact ih hm
      · cases hinfo : lookupKey next k' with
        | some info' => rw [hinfo] at hks; simp at hks
        | none =>
          simp only [keptMarkers, List.filter_cons, hinfo, Option.isSome_none,
            Bool.false_eq_true, if_neg, ite_false]
          exact ih hm

theorem mem_keys_keptMarkers {next : List (String × Photo × Nat)}
    {ms : List (String × Marker)} {x : String} :
    x ∈ (keptMarkers next ms).map Prod.fst ↔
      x ∈ ms.map Prod.fst ∧ (lookupKey next x).isSome := by
  unfold keptMarkers
  constructor
  · intro h
    rcases List.mem_map.mp h with ⟨e, he, hx⟩
    rcases List.mem_map.mp he with ⟨e0, he0, heq⟩
    rcases List.mem_filter.mp he0 with ⟨hmem, hsome⟩
    have hfst : e.1 = e0.1 := by
      cases hinfo : lookupKey next e0.1 with
      | none => rw [hinfo] at heq; rw [← heq]
      | some info => rw [hinfo] at heq; rw [← heq]
    rw [← hx, hfst]
    exact ⟨List.mem_map.mpr ⟨e0, hmem, rfl⟩, hsome⟩
  · intro ⟨hmem, hsome⟩
    rcases List.mem_map.mp hmem with ⟨e0, he0, hx⟩
    refine List.mem_map.mpr ?_
    cases hinfo : lookupKey next e0.1 with
    | none => rw [← hx, hinfo] at hsome; simp at hsome
    | some info =>
      refine ⟨(e0.1, updateBadge e0.2 info.2), ?_, hx⟩
      refine List.mem_map.mpr ⟨e0, List.mem_filter.mpr ⟨he0, by rw [hinfo]; rfl⟩, ?_⟩
      simp only [hinfo]

theorem mem_keys_toAddOf {next : List (String × Photo × Nat)}
    {ms : List (String × Marker)} {x : String} :
    x ∈ (toAddOf next ms).map Prod.fst ↔
      x ∈ next.map Prod.fst ∧ lookupKey ms x = none := by
  unfold toAddOf
  constructor
  · intro h
    rcases List.mem_map.mp h with ⟨e, he, hx⟩
    rcases List.mem_filter.mp he with ⟨hmem, hnone⟩
    subst hx
    refine ⟨List.mem_map.mpr ⟨e, hmem, rfl⟩, ?_⟩
    cases hl : lookupKey ms e.1 with
    | none => rfl
    | some m => rw [hl] at hnone; simp at hnone
  · intro ⟨hmem, hnone⟩
    rcases List.mem_map.mp hmem with ⟨e, he, hx⟩
    subst hx
    exact List.mem_map.mpr ⟨e, List.mem_filter.mpr ⟨he, by rw [hnone]; rfl⟩, rfl⟩

theorem mem_toAddOf {next : List (String × Photo × Nat)}
    {ms : List (String × Marker)} {e : String × Photo × Nat}
    (h : e ∈ toAddOf next ms) : e ∈ next ∧ lookupKey ms e.1 = none := by
  rcases List.mem_filter.mp h with ⟨hmem, hnone⟩
  refine ⟨hmem, ?_⟩
  cases hl : lookupKey ms e.1 with
  | none => rfl
  | some m => rw [hl] at hnone; simp at hnone

theorem keys_createdFrom : ∀ (i : Nat) (l : List (String × Photo × Nat)),
    (createdFrom i l).map Prod.fst = l.map Prod.fst := by
  intro i l
  induction l generalizing i with
  | nil => rfl
  | cons e rest ih =>
    obtain ⟨k, p, hc⟩ := e
    simp [createdFrom, ih]

theorem mem_createdFrom : ∀ {i : Nat} {l : List (String × Photo × Nat)}
    {e : String × Marker}, e ∈ createdFrom i l →
    ∃ k p hc id, (k, p, hc) ∈ l ∧ e = (k, createMarker p hc id) := by
  intro i l
  induction l generalizing i with
  | nil => intro e h; simp [createdFrom] at h
  | cons e0 rest ih =>
    obtain ⟨k, p, hc⟩ := e0
    intro e h
    simp only [createdFrom] at h
    rcases List.mem_cons.mp h with h1 | h1
    · exact ⟨k, p, hc, i, List.mem_cons_self _ _, h1⟩
    · rcases ih h1 with ⟨k', p', hc', id', hmem, heq⟩
      exact ⟨k', p', hc', id', List.mem_cons_of_mem _ hmem, heq⟩

theorem toAddOf_nodup_keys {next : List (String × Photo × Nat)}
    {ms : List (String × Marker)}
    (hn : (next.map Prod.fst).Nodup) :
    ((toAddOf next ms).map Prod.fst).Nodup := by
  unfold toAddOf
  exact hn.sublist (List.Sublist.map _ (List.filter_sublist _))

/-- Keys after an `update()` pass: a key is tracked exactly when it is a
winner of the pass. -/
theorem update_keys {s : SamplerState} {vp : Viewport} (hm : s.map = some vp)
    (hl : s.layerGroup = true) (k : String) :
    (lookupKey (update s).markers k).isSome ↔
      (lookupKey (computeNext vp s.cellSize s.photos) k).isSome := by
  rw [update_eq hm hl]
  simp only []
  rw [lookupKey_isSome_iff_mem_keys, List.map_append, List.mem_append]
  rw [keys_createdFrom]
  constructor
  · intro h
    rcases h with h | h
    · exact (mem_keys_keptMarkers.mp h).2
    · rw [lookupKey_isSome_iff_mem_keys]
      exact (mem_keys_toAddOf.mp h).1
  · intro h
    cases hms : lookupKey s.markers k with
    | some m =>
      refine Or.inl (mem_keys_keptMarkers.mpr ⟨?_, h⟩)
      rw [← lookupKey_isSome_iff_mem_keys, hms]
      rfl
    | none =>
      exact Or.inr (mem_keys_toAddOf.mpr
        ⟨by rw [← lookupKey_isSome_iff_mem_keys]; exact h, hms⟩)




theorem mem_computeVisible {vp : Viewport} {photos : List Photo} {p : Photo}
    (h : p ∈ computeVisible vp photos) :
    p ∈ photos ∧ p.isFavorite = false ∧ vp.contains p.lat p.lng = true := by
  rcases List.mem_filter.mp h with ⟨hmem, hcond⟩
  rw [Bool.and_eq_true, Bool.not_eq_true'] at hcond
  exact ⟨hmem, hcond.1, hcond.2⟩

/-- Every tracked marker after an `update()` pass carries exactly the
winner photo recorded for its key (assuming the tracked-photo/key
invariant and key uniqueness across the state's photos). -/
theorem update_marker_photo {s : SamplerState} {vp : Viewport}
    (hm : s.map = some vp) (hl : s.layerGroup = true)
    (hmk : ∀ e ∈ s.markers, photoKey e.2.photo = e.1)
    (hco : ∀ p ∈ s.markers.map (fun e => e.2.photo) ++ s.photos,
           ∀ q ∈ s.markers.map (fun e => e.2.photo) ++ s.photos,
           photoKey p = photoKey q → p = q) :
    ∀ e ∈ (update s).markers,
      ∃ hc, lookupKey (computeNext vp s.cellSize s.photos) e.1 =
        some (e.2.photo, hc) := by
  intro e he
  rw [update_eq hm hl] at he
  simp only [List.mem_append] at he
  rcases he with he | he
  · rcases mem_keptMarkers he with ⟨m0, info, hmem, hinfo, hbadge⟩
    obtain ⟨p, hc⟩ := info
    have hpmem : (e.1, p, hc) ∈ computeNext vp s.cellSize s.photos :=
      lookupKey_mem hinfo
    rcases computeNext_entry hpmem with ⟨ck, ps, hbk, hsel, hkey, hhc⟩
    have hpvis : p ∈ computeVisible vp s.photos :=
      ((buildBuckets_inv _ hbk).2 p (selectBest_mem hsel)).2
    have hpph : p ∈ s.photos := (mem_computeVisible hpvis).1
    have hphoto : e.2.photo = m0.photo := by rw [hbadge]; rfl
    have hm0 : m0.photo = p := by
      refine hco m0.photo ?_ p ?_ ?_
      · exact List.mem_append.mpr (Or.inl (List.mem_map.mpr ⟨(e.1, m0), hmem, rfl⟩))
      · exact List.mem_append.mpr (Or.inr hpph)
      · rw [hmk (e.1, m0) hmem]
        exact hkey
    refine ⟨hc, ?_⟩
    rw [hphoto, hm0]
    exact hinfo
  · rcases mem_createdFrom he with ⟨k, p, hc, id, hmem, heq⟩
    have hnext := (mem_toAddOf hmem).1
    refine ⟨hc, ?_⟩
    have : e.1 = k ∧ e.2.photo = p := by rw [heq]; exact ⟨rfl, rfl⟩
    rw [this.1, this.2]
    exact lookupKey_of_mem_nodup computeNext_nodup_keys hnext

/-- Winners recorded for distinct keys sit in distinct grid cells. -/
theorem computeNext_distinct_cells {vp : Viewport} {cs : Int}
    {photos : List Photo} {k1 k2 : String} {p1 p2 : Photo} {h1 h2 : Nat}
    (hm1 : (k1, p1, h1) ∈ computeNext vp cs photos)
    (hm2 : (k2, p2, h2) ∈ computeNext vp cs photos) (hne : k1 ≠ k2) :
    cellKeyOf vp cs p1 ≠ cellKeyOf vp cs p2 := by
  rcases computeNext_entry hm1 with ⟨ck1, ps1, hbk1, hsel1, hkey1, hhc1⟩
  rcases computeNext_entry hm2 with ⟨ck2, ps2, hbk2, hsel2, hkey2, hhc2⟩
  have hc1 : cellKeyOf vp cs p1 = ck1 :=
    ((buildBuckets_inv _ hbk1).2 p1 (selectBest_mem hsel1)).1
  have hc2 : cellKeyOf vp cs p2 = ck2 :=
    ((buildBuckets_inv _ hbk2).2 p2 (selectBest_mem hsel2)).1
  rw [hc1, hc2]
  intro hcc
  subst hcc
  have hps : ps1 = ps2 := nodup_keys_mem_unique buildBuckets_nodup_keys hbk1 hbk2
  subst hps
  rw [hsel1] at hsel2
  have hp : p1 = p2 := Option.some.inj hsel2
  subst hp
  apply hne
  rw [hkey1, hkey2]




set_option maxRecDepth 8192

theorem selectBest_isSome {l : List Photo} (h : l ≠ []) :
    ∃ p, selectBest l = some p := by
  cases l with
  | nil => exact absurd rfl h
  | cons q qs => exact ⟨_, rfl⟩

/-- C1: the claim says a captioned photo always beats an uncaptioned one
in the same cell (neither a favorite), but the caption bonus is 1000
while the hash component ranges over 0..1023, so an uncaptioned photo
with hash bits 1023 beats a captioned photo with hash bits 0.  Here
`pA` (captioned, hash 0, priority 1000) loses its cell to `pB`
(uncaptioned, hash 1023, priority 1023), contradicting both the claim
and the source's own comment that priority is favorites > captioned >
hash tiebreak. -/
theorem C1_caption_priority_failure :
    pA.caption ≠ "" ∧ pB.caption = "" ∧
    pA.isFavorite = false ∧ pB.isFavorite = false ∧
    cellKeyOf vpAll 150 pA = cellKeyOf vpAll 150 pB ∧
    photoPriority pA = 1000 ∧ photoPriority pB = 1023 ∧
    computeNext vpAll 150 [pA, pB] = [(photoKey pB, pB, 1)] := by
  decide

/-- C2 counterexample: distinct photos can tie.  `p1` and `p2` have
distinct identity keys but the same masked hash (19) and no captions, so
their priority scores are equal, and the selected winner of their shared
bucket depends on the array order. -/
theorem C2_hash_tie_counterexample :
    photoKey p1 ≠ photoKey p2 ∧ photoPriority p1 = photoPriority p2 ∧
    selectBest [p1, p2] = some p1 ∧ selectBest [p2, p1] = some p2 ∧
    computeNext vpAll 150 [p1, p2] = [(photoKey p1, p1, 1)] ∧
    computeNext vpAll 150 [p2, p1] = [(photoKey p2, p2, 1)] := by
  decide

/-- C2 amended: the hash component makes the score a deterministic
function of the photo alone, but it does not preclude ties; the winner
is independent of the bucket's member order exactly when the members'
priority scores are pairwise distinct. -/
theorem C2_order_independent_when_scores_distinct {l1 l2 : List Photo}
    (hperm : l1.Perm l2)
    (hdist : l1.Pairwise (fun a b => photoPriority a ≠ photoPriority b)) :
    selectBest l1 = selectBest l2 := by
  cases hl1 : l1 with
  | nil =>
    subst hl1
    have : l2 = [] := hperm.nil_eq.symm
    rw [this]
  | cons q qs =>
    have hne1 : l1 ≠ [] := by rw [hl1]; simp
    have hne2 : l2 ≠ [] := by
      intro h
      rw [h] at hperm
      rw [hperm.eq_nil] at hne1
      exact hne1 rfl
    rw [← hl1]
    obtain ⟨m1, hm1⟩ := selectBest_isSome hne1
    obtain ⟨m2, hm2⟩ := selectBest_isSome hne2
    rw [hm1, hm2]
    have hmem1 : m1 ∈ l1 := selectBest_mem hm1
    have hmem2 : m2 ∈ l1 := hperm.mem_iff.mpr (selectBest_mem hm2)
    have hle1 : photoPriority m2 ≤ photoPriority m1 := selectBest_max hm1 m2 hmem2
    have hle2 : photoPriority m1 ≤ photoPriority m2 :=
      selectBest_max hm2 m1 (hperm.mem_iff.mp hmem1)
    by_cases heq : m1 = m2
    · rw [heq]
    · refine absurd (le_antisymm hle2 hle1) (hdist.forall ?_ hmem1 hmem2 heq)
      intro a b h h'
      exact h h'.symm

/-- C2 witness: with pairwise distinct scores, two orders of the same
bucket select the same winner. -/
theorem C2_order_independent_witness :
    selectBest [p1, pB] = selectBest [pB, p1] :=
  C2_order_independent_when_scores_distinct (by decide) (by decide)

/-- C3 counterexample: the configured `isFavorite` predicate is stored
but never consulted by `update()`.  In state `s3` the predicate returns
true for every photo, yet `pA` (whose `_isFavorite` flag is false) is
bucketed and becomes an active marker. -/
theorem C3_predicate_not_consulted :
    s3.favGetter.map (fun g => g pA) = some true ∧
    pA.isFavorite = false ∧
    (update s3).markers.map Prod.fst = [photoKey pA] := by
  refine ⟨rfl, rfl, ?_⟩
  decide

/-- C3 amended: exclusion is driven by the photo's `_isFavorite` flag,
not the configured predicate: no photo whose flag is set ever appears in
a bucket or as a recorded winner of the pass. -/
theorem C3_flag_favorites_excluded (vp : Viewport) (cs : Int)
    (photos : List Photo) :
    (∀ b ∈ buildBuckets vp cs (computeVisible vp photos),
      ∀ p ∈ b.2, p.isFavorite = false) ∧
    (∀ e ∈ computeNext vp cs photos,
      (e : String × Photo × Nat).2.1.isFavorite = false) := by
  constructor
  · intro b hb p hp
    exact (mem_computeVisible ((buildBuckets_inv b hb).2 p hp).2).2.1
  · intro e he
    obtain ⟨k, p, hc⟩ := e
    rcases computeNext_entry he with ⟨ck, ps, hbk, hsel, _, _⟩
    exact (mem_computeVisible
      ((buildBuckets_inv _ hbk).2 p (selectBest_mem hsel)).2).2.1

/-- C3 amended witness: the recorded winner of the concrete pass over
two non-favorite photos is not a favorite. -/
theorem C3_flag_favorites_excluded_witness : pB.isFavorite = false :=
  (C3_flag_favorites_excluded vpAll 150 [pA, pB]).2 (photoKey pB, pB, 1)
    (by decide)




theorem lookupKey_none_iff {α : Type} {m : List (String × α)} {k : String} :
    lookupKey m k = none ↔ k ∉ m.map Prod.fst := by
  rw [← lookupKey_isSome_iff_mem_keys]
  cases lookupKey m k <;> simp

theorem update_preserves {s : SamplerState} {vp : Viewport}
    (hm : s.map = some vp) (hl : s.layerGroup = true) :
    (update s).map = s.map ∧ (update s).photos = s.photos ∧
    (update s).cellSize = s.cellSize ∧ (update s).layerGroup = s.layerGroup := by
  rw [update_eq hm hl]
  exact ⟨rfl, rfl, rfl, rfl⟩

/-- C4: after an `update()` pass on an initialized sampler (whose
tracked markers carry their own photo's key, with identity keys unique
across the state's photos), the Active Marker Set tracks exactly the
winners of the pass, and markers with distinct keys project to distinct
grid cells under the current transform. -/
theorem C4_at_most_one_per_cell {s : SamplerState} {vp : Viewport}
    (hm : s.map = some vp) (hl : s.layerGroup = true)
    (hmk : ∀ e ∈ s.markers, photoKey (e : String × Marker).2.photo = e.1)
    (hco : ∀ p ∈ s.markers.map (fun e => e.2.photo) ++ s.photos,
           ∀ q ∈ s.markers.map (fun e => e.2.photo) ++ s.photos,
           photoKey p = photoKey q → p = q) :
    (∀ k, (lookupKey (update s).markers k).isSome ↔
      (lookupKey (computeNext vp s.cellSize s.photos) k).isSome) ∧
    (∀ e1 ∈ (update s).markers, ∀ e2 ∈ (update s).markers,
      (e1 : String × Marker).1 ≠ (e2 : String × Marker).1 →
      cellKeyOf vp s.cellSize e1.2.photo ≠ cellKeyOf vp s.cellSize e2.2.photo) := by
  refine ⟨update_keys hm hl, ?_⟩
  intro e1 he1 e2 he2 hne
  rcases update_marker_photo hm hl hmk hco e1 he1 with ⟨hc1, hw1⟩
  rcases update_marker_photo hm hl hmk hco e2 he2 with ⟨hc2, hw2⟩
  exact computeNext_distinct_cells (lookupKey_mem hw1) (lookupKey_mem hw2) hne

/-- C4 witness: the two markers of the concrete two-cell pass sit in
distinct grid cells. -/
theorem C4_at_most_one_per_cell_witness :
    cellKeyOf vpAll s6.cellSize (createMarker pC 0 0).photo ≠
      cellKeyOf vpAll s6.cellSize (createMarker pD 0 1).photo :=
  (C4_at_most_one_per_cell rfl rfl (by decide) (by decide)).2
    (photoKey pC, createMarker pC 0 0) (by decide)
    (photoKey pD, createMarker pD 0 1) (by decide) (by decide)

/-- C5 counterexample: calling `init()` again does not reset the Active
Marker Set.  State `s5` tracks a marker handle with identity 99 for
`pA`'s key; after re-initialization with a collection in which that key
wins again, the very same handle (identity 99, created before the second
`init`) is still tracked. -/
theorem C5_reinit_retains_old_handle :
    (lookupKey s5.markers (photoKey pA)).map Marker.id = some 99 ∧
    (lookupKey (init vpAll (some [pA]) none s5).markers (photoKey pA)).map
      Marker.id = some 99 := by
  decide

/-- C5 amended: `init()` re-runs the diff against the existing tracking
state instead of clearing it: afterwards the tracked keys are exactly
the winners over the new collection (so entries whose key is no longer
selected are removed), but an entry whose key wins again keeps its
existing handle, merely with its badge updated. -/
theorem C5_init_diffs_not_resets (s : SamplerState) (vp : Viewport)
    (photos : Option (List Photo)) (opts : Option Options) :
    (∀ k, (lookupKey (init vp photos opts s).markers k).isSome ↔
      (lookupKey (computeNext vp (jsOrInt (opts.bind Options.cellSize) s.cellSize)
        (photos.getD [])) k).isSome) ∧
    (∀ (k : String) (m : Marker) (info : Photo × Nat),
      lookupKey s.markers k = some m →
      lookupKey (computeNext vp (jsOrInt (opts.bind Options.cellSize) s.cellSize)
        (photos.getD [])) k = some info →
      lookupKey (init vp photos opts s).markers k =
        some (updateBadge m info.2)) ∧
    (∀ (m : Marker) (hc : Nat), (updateBadge m hc).id = m.id) := by
  refine ⟨?_, ?_, fun m hc => rfl⟩
  · intro k
    exact update_keys rfl rfl k
  · intro k m info hm hnext
    unfold init
    rw [update_eq rfl rfl]
    exact lookupKey_append_some (lookupKey_keptMarkers_some hnext hm)

/-- C5 amended witness: the concrete re-selected key keeps handle 99
with its badge refreshed. -/
theorem C5_init_diffs_not_resets_witness :
    lookupKey (init vpAll (some [pA]) none s5).markers (photoKey pA) =
      some (updateBadge mk99 0) :=
  (C5_init_diffs_not_resets s5 vpAll (some [pA]) none).2.1 (photoKey pA) mk99
    (pA, 0) (by decide) (by decide)




/-- C6 counterexample: a `createMarker` failure is not local to its
winner.  In state `s6` the pass has two bucket winners (`pC` then `pD`);
the collaborator throws only on `pC`'s key, yet the pass aborts with the
exception (flag `true`) and `pD`'s marker — whose own creation would not
have failed — is never created. -/
theorem C6_render_failure_aborts_pass :
    (updateWith fail6 s6).2 = true ∧
    (updateWith fail6 s6).1.markers = [] ∧
    (lookupKey (computeNext vpAll s6.cellSize s6.photos)
      (photoKey pD)).isSome = true ∧
    fail6 (photoKey pD) = false ∧
    lookupKey (updateWith fail6 s6).1.markers (photoKey pD) = none := by
  decide

/-- C6 amended: when `createMarker` throws on one winner, the add loop
stops there: winners created earlier in iteration order remain, the
exception escapes the pass, and the failed key is left untracked (so it
is retried by the next pass). -/
theorem C6_failure_stops_add_loop (f : String → Bool) (s : SamplerState)
    (vp : Viewport) (pre : List (String × Photo × Nat)) (k : String)
    (p : Photo) (hc : Nat) (post : List (String × Photo × Nat))
    (hm : s.map = some vp) (hl : s.layerGroup = true)
    (hsplit : toAddOf (computeNext vp s.cellSize s.photos) s.markers =
      pre ++ (k, p, hc) :: post)
    (hpre : ∀ e ∈ pre, f (e : String × Photo × Nat).1 = false)
    (hk : f k = true) :
    (updateWith f s).2 = true ∧
    (updateWith f s).1.markers =
      keptMarkers (computeNext vp s.cellSize s.photos) s.markers ++
        createdFrom s.nextId pre ∧
    lookupKey (updateWith f s).1.markers k = none := by
  have hmem : (k, p, hc) ∈ toAddOf (computeNext vp s.cellSize s.photos) s.markers := by
    rw [hsplit]
    exact List.mem_append.mpr (Or.inr (List.mem_cons_self _ _))
  have hms : lookupKey s.markers k = none := (mem_toAddOf hmem).2
  have hres : updateWith f s =
      ({ s with
          markers :=
            keptMarkers (computeNext vp s.cellSize s.photos) s.markers ++
              createdFrom s.nextId pre
          nextId := s.nextId + pre.length }, true) := by
    unfold updateWith
    rw [hm]
    simp only [hl, if_pos]
    rw [hsplit, addLoop_fail pre k p hc post _ hpre hk]
  refine ⟨by rw [hres], by rw [hres], ?_⟩
  rw [hres]
  have hkept : lookupKey
      (keptMarkers (computeNext vp s.cellSize s.photos) s.markers) k = none := by
    rw [lookupKey_none_iff]
    intro hmemk
    have := (mem_keys_keptMarkers.mp hmemk).1
    rw [lookupKey_none_iff] at hms
    exact hms this
  rw [lookupKey_append_none _ hkept, lookupKey_none_iff, keys_createdFrom]
  intro hkpre
  have hnodup : ((toAddOf (computeNext vp s.cellSize s.photos) s.markers).map
      Prod.fst).Nodup := toAddOf_nodup_keys computeNext_nodup_keys
  rw [hsplit, List.map_append, List.map_cons] at hnodup
  rcases List.nodup_append.mp hnodup with ⟨_, hnd2, hdisj⟩
  exact hdisj hkpre (List.mem_cons_self _ _)

/-- C6 amended witness: with the failure on the first winner of the
concrete pass, the failed key stays untracked. -/
theorem C6_failure_stops_add_loop_witness :
    lookupKey (updateWith fail6 s6).1.markers (photoKey pC) = none :=
  (C6_failure_stops_add_loop fail6 s6 vpAll [] (photoKey pC) pC 0
    [(photoKey pD, pD, 0)] rfl rfl (by decide) (by decide) (by decide)).2.2




/-- C7: when a key wins its cell in two consecutive passes, the second
pass retains the very same marker handle (same identity, same photo)
and only refreshes its badge from the new hidden count. -/
theorem C7_stable_retention {s : SamplerState} {vp : Viewport}
    (hm : s.map = some vp) (hl : s.layerGroup = true)
    (k : String) (p : Photo) (hc : Nat) (m : Marker)
    (hwin : lookupKey (computeNext vp s.cellSize s.photos) k = some (p, hc))
    (hmkr : lookupKey (update s).markers k = some m) :
    lookupKey (update (update s)).markers k = some (updateBadge m hc) ∧
    (updateBadge m hc).id = m.id ∧ (updateBadge m hc).photo = m.photo ∧
    (updateBadge m hc).badge = (if hc > 0 then some hc else none) := by
  obtain ⟨hpm, hpp, hpc, hpl⟩ := update_preserves hm hl
  have hm2 : (update s).map = some vp := by rw [hpm, hm]
  have hl2 : (update s).layerGroup = true := by rw [hpl, hl]
  have hwin2 : lookupKey
      (computeNext vp (update s).cellSize (update s).photos) k = some (p, hc) := by
    rw [hpp, hpc]
    exact hwin
  refine ⟨?_, rfl, rfl, rfl⟩
  rw [update_eq hm2 hl2]
  exact lookupKey_append_some (lookupKey_keptMarkers_some hwin2 hmkr)

/-- C7 witness: the concrete shared-cell winner keeps handle 0 across a
second pass, with its badge showing the hidden count 1. -/
theorem C7_stable_retention_witness :
    lookupKey (update (update s4)).markers (photoKey pB) =
      some (updateBadge (createMarker pB 1 0) 1) :=
  (C7_stable_retention rfl rfl (photoKey pB) pB 1 (createMarker pB 1 0)
    (by decide) (by decide)).1

/-- C8: every winner recorded by a pass carries a hidden count equal to
its bucket's size minus one (so a singleton bucket wins with hidden
count 0), and the badge update shows `+N` exactly for positive counts,
removing the badge at 0. -/
theorem C8_hidden_count (vp : Viewport) (cs : Int) (photos : List Photo) :
    (∀ (k : String) (p : Photo) (hc : Nat),
      (k, p, hc) ∈ computeNext vp cs photos →
      ∃ ps, (cellKeyOf vp cs p, ps) ∈
          buildBuckets vp cs (computeVisible vp photos) ∧
        selectBest ps = some p ∧ hc = ps.length - 1 ∧
        (ps.length = 1 → hc = 0)) ∧
    (∀ m : Marker, (updateBadge m 0).badge = none) ∧
    (∀ (m : Marker) (hc : Nat), 0 < hc → (updateBadge m hc).badge = some hc) := by
  refine ⟨?_, fun m => rfl, fun m hc hpos => by simp [updateBadge, hpos]⟩
  intro k p hc hmem
  rcases computeNext_entry hmem with ⟨ck, ps, hbk, hsel, hkey, hhc⟩
  have hcell : cellKeyOf vp cs p = ck :=
    ((buildBuckets_inv _ hbk).2 p (selectBest_mem hsel)).1
  rw [hcell]
  refine ⟨ps, hbk, hsel, hhc, fun hone => ?_⟩
  rw [hhc, hone]

/-- C8 witness: the concrete shared-cell winner is recorded with hidden
count 1 = bucket size 2 minus 1. -/
theorem C8_hidden_count_witness :
    ∃ ps, (cellKeyOf vpAll 150 pB, ps) ∈
        buildBuckets vpAll 150 (computeVisible vpAll [pA, pB]) ∧
      selectBest ps = some pB ∧ 1 = ps.length - 1 ∧ (ps.length = 1 → 1 = 0) :=
  (C8_hidden_count vpAll 150 [pA, pB]).1 (photoKey pB) pB 1 (by decide)

/-- C9: the winners of a pass are a function of the photo collection (in
array order), the viewport, and the cell size alone; two updates on
states agreeing on those inputs track exactly the same keys afterwards,
whatever tracking state they started from. -/
theorem C9_update_deterministic {s1 s2 : SamplerState} {vp : Viewport}
    (hm1 : s1.map = some vp) (hm2 : s2.map = some vp)
    (hl1 : s1.layerGroup = true) (hl2 : s2.layerGroup = true)
    (hp : s1.photos = s2.photos) (hcs : s1.cellSize = s2.cellSize) :
    computeNext vp s1.cellSize s1.photos =
      computeNext vp s2.cellSize s2.photos ∧
    (∀ k, (lookupKey (update s1).markers k).isSome ↔
      (lookupKey (update s2).markers k).isSome) := by
  have hnext : computeNext vp s1.cellSize s1.photos =
      computeNext vp s2.cellSize s2.photos := by rw [hp, hcs]
  refine ⟨hnext, fun k => ?_⟩
  rw [update_keys hm1 hl1 k, update_keys hm2 hl2 k, hnext]

/-- C9 witness: two states sharing photos, viewport and cell size but
with different pre-existing tracking agree on whether the concrete
winner key is tracked after their passes. -/
theorem C9_update_deterministic_witness :
    (lookupKey (update s4).markers (photoKey pB)).isSome ↔
      (lookupKey (update s9).markers (photoKey pB)).isSome :=
  (C9_update_deterministic rfl rfl rfl rfl rfl rfl).2 (photoKey pB)

/-- C10: on the never-initialized state, `update()` (whatever the
rendering collaborator would do) is an exact no-op with no exception,
`setCellSize` and `updateIconSize` only store the new size and create no
marker, and `stop()` is safe, leaving zero active markers and no layer
group. -/
theorem C10_uninitialized_safe :
    (∀ f, updateWith f initialState = (initialState, false)) ∧
    update initialState = initialState ∧
    (∀ n : Int, setCellSize n initialState =
        { initialState with cellSize := n } ∧
      (setCellSize n initialState).markers = []) ∧
    (∀ n : Nat, updateIconSize n initialState =
        { initialState with iconSize := n } ∧
      (updateIconSize n initialState).markers = []) ∧
    (stop initialState).markers = [] ∧
    (stop initialState).layerGroup = false := by
  exact ⟨fun f => rfl, rfl, fun n => ⟨rfl, rfl⟩, fun n => ⟨rfl, rfl⟩, rfl, rfl⟩



end TravelPhotoMap
